import Mathlib

/-!
Shallow embedding of the markdown-link diagnostics engine from
`src/extensions/markdown-language-features/src/languageFeatures/diagnostics.ts`.

External collaborators (link extractor, table of contents, workspace
document/path oracles) are modelled as an `Oracle` record of pure
functions, matching the interface-only consumption described by the
specification.  Async code is modelled sequentially; a cancellation
token is a constant `Bool` (`true` = cancellation requested).
-/

namespace MdDiagnostics

/-- A position/range in a document, used only for diagnostic anchoring
(`vscode.Range` of `link.source.hrefRange`). -/
structure Range where
  startLine : Nat
  startCharacter : Nat
  endLine : Nat
  endCharacter : Nat
deriving DecidableEq, Repr

/-- `vscode.Uri`: we keep the two observations the diagnostics code makes,
its canonical string form (`toString()`) and its `fsPath`. -/
structure Uri where
  key : String
  fsPath : String
deriving DecidableEq, Repr

/-- A text document as seen by the diagnostics code: `SkinnyTextDocument`
and `vscode.TextDocument` expose `uri`; `languageId` is used by
`isMarkdownFile`. -/
structure Document where
  uri : Uri
  languageId : String
deriving DecidableEq, Repr

/-- `DiagnosticLevel` from diagnostics.ts. -/
inductive DiagnosticLevel where
  | ignore
  | warning
  | error
deriving DecidableEq, Repr

/-- `DiagnosticOptions` from diagnostics.ts. -/
structure DiagnosticOptions where
  enabled : Bool
  validateReferences : DiagnosticLevel
  validateOwnHeaders : DiagnosticLevel
  validateFilePaths : DiagnosticLevel
deriving DecidableEq, Repr

/-- `vscode.DiagnosticSeverity` (only the constructors the code produces
are ever used). -/
inductive DiagnosticSeverity where
  | err
  | warn
  | info
  | hint
deriving DecidableEq, Repr

/-- `toSeverity` from diagnostics.ts: `error` and `warning` map to a
severity, `ignore` maps to `undefined`. -/
def toSeverity : DiagnosticLevel → Option DiagnosticSeverity
  | DiagnosticLevel.error => some DiagnosticSeverity.err
  | DiagnosticLevel.warning => some DiagnosticSeverity.warn
  | DiagnosticLevel.ignore => none

/-- `vscode.Diagnostic` restricted to the fields the code sets. -/
structure Diagnostic where
  range : Range
  message : String
  severity : DiagnosticSeverity
deriving DecidableEq, Repr

/-- The href of a markdown link (`documentLinkProvider`): internal links
carry a target path (canonical string form of the uri) and a fragment,
reference links carry a reference name, all other links are opaque. -/
inductive LinkHref where
  | internal (path : String) (fragment : String)
  | reference (ref : String)
  | externalLink
deriving DecidableEq, Repr

/-- `MdLinkSource`: the part the diagnostics code reads is `hrefRange`. -/
structure MdLinkSource where
  hrefRange : Range
deriving DecidableEq, Repr

/-- `MdLink`: either an inline link or a reference-style link definition
(which carries the name it defines). -/
inductive MdLink where
  | link (source : MdLinkSource) (href : LinkHref)
  | definition (source : MdLinkSource) (refName : String) (href : LinkHref)
deriving DecidableEq, Repr

/-- The `source` field shared by both link kinds. -/
def MdLink.source : MdLink → MdLinkSource
  | MdLink.link s _ => s
  | MdLink.definition s _ _ => s

/-- The `href` field shared by both link kinds. -/
def MdLink.href : MdLink → LinkHref
  | MdLink.link _ h => h
  | MdLink.definition _ _ h => h

/-- Modelled from the spec: `LinkDefinitionSet` from
`documentLinkProvider.ts` is not under src/; per the specification it is
an index of reference-style link definitions by their reference name,
built from one document's links, supporting lookup by name. -/
def linkDefinitionSetLookup (links : List MdLink) (ref : String) : Bool :=
  links.any fun l =>
    match l with
    | MdLink.definition _ name _ => name == ref
    | _ => false

/-- Modelled from the spec: `isMarkdownFile` from `util/file` is not under
src/; the specification filters to markdown-kind documents only. -/
def isMarkdownFile (doc : Document) : Bool :=
  doc.languageId == "markdown"

/-- The external collaborators consumed by the engine (spec section 6):
link extraction, per-document table of contents lookup, workspace
markdown-document resolution and filesystem existence. -/
structure Oracle where
  getAllLinks : Document → List MdLink
  tocLookup : Document → String → Bool
  tryFindMdDocumentForLink : String → Option Document
  pathExists : String → Bool

/-- `DiagnosticComputer.validateOwnHeaderLinks`: gated on
`options.validateOwnHeaders`; for every internal link to the document's
own path with a non-empty fragment absent from the own table of
contents, emit one diagnostic at the link's href range. -/
def validateOwnHeaderLinks (o : Oracle) (doc : Document)
    (options : DiagnosticOptions) (links : List MdLink) (token : Bool) :
    List Diagnostic :=
  match toSeverity options.validateOwnHeaders with
  | none => []
  | some severity =>
    if token then []
    else
      links.filterMap fun link =>
        match link.href with
        | LinkHref.internal path fragment =>
          if path == doc.uri.key && fragment != "" && !(o.tocLookup doc fragment)
          then some ⟨link.source.hrefRange, "No header found: " ++ fragment, severity⟩
          else none
        | _ => none

/-- `DiagnosticComputer.validateReferenceLinks`: gated on
`options.validateReferences`; for every reference link whose name has no
definition in the definition set built from the same links, emit one
diagnostic at the link's href range. -/
def validateReferenceLinks (options : DiagnosticOptions)
    (links : List MdLink) : List Diagnostic :=
  match toSeverity options.validateReferences with
  | none => []
  | some severity =>
    links.filterMap fun link =>
      match link.href with
      | LinkHref.reference ref =>
        if !(linkDefinitionSetLookup links ref)
        then some ⟨link.source.hrefRange, "No link reference found: " ++ ref, severity⟩
        else none
      | _ => none

/-- One entry of the `FileLinkMap`: a target path together with the
`(source, fragment)` data of every link to it, in link order. -/
structure FileLinkData where
  source : MdLinkSource
  fragment : String
deriving DecidableEq, Repr

/-- `FileLinksData` from diagnostics.ts (the map value). -/
structure FileLinksData where
  path : String
  links : List FileLinkData
deriving DecidableEq, Repr

/-- Insertion into the `FileLinkMap`: append the link data to an existing
entry for the same file key, else append a fresh entry (JS `Map`
preserves insertion order). -/
def fileLinkMapInsert (m : List FileLinksData) (path : String)
    (d : FileLinkData) : List FileLinksData :=
  match m with
  | [] => [⟨path, [d]⟩]
  | e :: rest =>
    if e.path == path then ⟨e.path, e.links ++ [d]⟩ :: rest
    else e :: fileLinkMapInsert rest path d

/-- The `FileLinkMap` constructor: group the internal links by the
canonical string form of their target path. -/
def fileLinkMapBuild (links : List MdLink) : List FileLinksData :=
  links.foldl
    (fun m l =>
      match l.href with
      | LinkHref.internal path fragment =>
        fileLinkMapInsert m path ⟨l.source, fragment⟩
      | _ => m)
    []

/-- The body of the per-entry task queued on the limiter inside
`DiagnosticComputer.validateFileLinks`: resolve the target; skip
self-references; report a missing file once per referencing link; for a
resolved markdown document check each fragment against its table of
contents. -/
def processFileLinkEntry (o : Oracle) (doc : Document)
    (severity : DiagnosticSeverity) (token : Bool) (entry : FileLinksData) :
    List Diagnostic :=
  if token then []
  else
    match o.tryFindMdDocumentForLink entry.path with
    | some hrefDoc =>
      if hrefDoc.uri.key == doc.uri.key then []
      else
        let fragmentLinks := entry.links.filter fun l => l.fragment != ""
        if fragmentLinks.isEmpty then []
        else
          fragmentLinks.filterMap fun l =>
            if !(o.tocLookup hrefDoc l.fragment)
            then some ⟨l.source.hrefRange,
              "Header does not exist in file: " ++ l.fragment, severity⟩
            else none
    | none =>
      if !(o.pathExists entry.path)
      then entry.links.map fun l =>
        ⟨l.source.hrefRange,
          "File does not exist at path: " ++ entry.path, severity⟩
      else []

/-- `DiagnosticComputer.validateFileLinks`: gated on
`options.validateFilePaths`; build the file-link map and process every
entry, concatenating the per-entry diagnostics in entry order. -/
def validateFileLinks (o : Oracle) (doc : Document)
    (options : DiagnosticOptions) (links : List MdLink) (token : Bool) :
    List Diagnostic :=
  match toSeverity options.validateFilePaths with
  | none => []
  | some severity =>
    let linkSet := fileLinkMapBuild links
    if linkSet.isEmpty then []
    else (linkSet.map (processFileLinkEntry o doc severity token)).flatten

/-- `DiagnosticComputer.getDiagnostics`: extract the links, honour
cancellation, then run the three passes and flatten their results in the
fixed order file-path, reference, own-header. -/
def computerGetDiagnostics (o : Oracle) (doc : Document)
    (options : DiagnosticOptions) (token : Bool) : List Diagnostic :=
  let links := o.getAllLinks doc
  if token then []
  else
    validateFileLinks o doc options links token
      ++ validateReferenceLinks options links
      ++ validateOwnHeaderLinks o doc options links token

/-- `DiagnosticManager.getDiagnostics`: look up the per-resource options;
if validation is not enabled return empty, else delegate to the
computer. -/
def managerGetDiagnostics (o : Oracle) (cfg : Uri → DiagnosticOptions)
    (doc : Document) (token : Bool) : List Diagnostic :=
  let config := cfg doc.uri
  if !config.enabled then []
  else computerGetDiagnostics o doc config token

/-- The published diagnostic collection
(`vscode.languages.createDiagnosticCollection`): an association of uri
keys to diagnostic lists. -/
abbrev Collection := List (String × List Diagnostic)

/-- `collection.set(uri, diagnostics)`: replace the entry for the key, or
append a fresh one. -/
def collSet (c : Collection) (u : String) (ds : List Diagnostic) : Collection :=
  match c with
  | [] => [(u, ds)]
  | e :: rest => if e.1 == u then (u, ds) :: rest else e :: collSet rest u ds

/-- `collection.delete(uri)`. -/
def collDelete (c : Collection) (u : String) : Collection :=
  c.filter fun e => e.1 != u

/-- Read back the entry published for a key, if any. -/
def collLookup : Collection → String → Option (List Diagnostic)
  | [], _ => none
  | e :: rest, u => if e.1 == u then some e.2 else collLookup rest u

/-- Observable state of the `DiagnosticManager`: the pending set, the
update computations that have started but not yet published
(`update` suspends at the `await` before `collection.set`), and the
published collection. -/
structure ManagerState where
  pending : List String
  inflight : List (String × List Diagnostic)
  collection : Collection
deriving DecidableEq, Repr

/-- The manager with nothing pending, in flight, or published. -/
def initialManagerState : ManagerState := ⟨[], [], []⟩

/-- Events acting on the manager state: a markdown document opened or
changed (`onDocUpdated`), a document closed, an `update` computation
reaching its `await` with a known eventual result, and the oldest
in-flight `update` resuming and publishing via `collection.set`. -/
inductive ManagerEvent where
  | docUpdated (u : String)
  | closeDoc (u : String)
  | beginUpdate (u : String) (ds : List Diagnostic)
  | finishUpdate
deriving DecidableEq, Repr

/-- One step of the manager: `docUpdated` adds the uri to the pending
set; `closeDoc` deletes the uri from the pending set and from the
collection (and nothing else — in-flight updates carry `noopToken` and
are not cancelled); `beginUpdate` records an in-flight computation;
`finishUpdate` publishes the oldest in-flight result. -/
def managerStep (s : ManagerState) : ManagerEvent → ManagerState
  | ManagerEvent.docUpdated u =>
    { s with pending := if s.pending.contains u then s.pending else s.pending ++ [u] }
  | ManagerEvent.closeDoc u =>
    { s with pending := s.pending.filter (fun v => v != u),
             collection := collDelete s.collection u }
  | ManagerEvent.beginUpdate u ds =>
    { s with inflight := s.inflight ++ [(u, ds)] }
  | ManagerEvent.finishUpdate =>
    match s.inflight with
    | [] => s
    | (u, ds) :: rest =>
      { s with inflight := rest, collection := collSet s.collection u ds }

/-- Run the manager over a list of events. -/
def managerRun (s : ManagerState) (es : List ManagerEvent) : ManagerState :=
  es.foldl managerStep s

/-- `DiagnosticManager.getAllTabResources`, restricted to the text-input
tabs, which are given directly as their uris: the set of canonical keys
open in any tab group. -/
def getAllTabResources (tabUris : List Uri) : List String :=
  tabUris.map Uri.key

/-- `DiagnosticManager.rebuild`: clear the whole collection, then update
every open text document whose uri is among the tab resources and which
is a markdown file. -/
def rebuild (o : Oracle) (cfg : Uri → DiagnosticOptions)
    (textDocuments : List Document) (tabUris : List Uri) (_prior : Collection) :
    Collection :=
  let cleared : Collection := []
  let docs := textDocuments.filter fun d =>
    (getAllTabResources tabUris).contains d.uri.key && isMarkdownFile d
  docs.foldl
    (fun acc d => collSet acc d.uri.key (managerGetDiagnostics o cfg d false))
    cleared

/-- `DiagnosticManager.recomputePendingDiagnostics`: drain the pending
set; for each drained resource, find the first open text document with
the same `fsPath` and update it (publishing under that document's uri);
resources with no such document are dropped. -/
def recomputePendingDiagnostics (o : Oracle) (cfg : Uri → DiagnosticOptions)
    (textDocuments : List Document) (pending : List Uri) (c : Collection) :
    List Uri × Collection :=
  let found := pending.filterMap fun r =>
    textDocuments.find? fun d => d.uri.fsPath == r.fsPath
  ([],
    found.foldl
      (fun acc d => collSet acc d.uri.key (managerGetDiagnostics o cfg d false))
      c)

/-- Modelled from the spec: the `Limiter` from `util/limiter` is not
under src/; per the specification it caps simultaneous in-flight tasks
at a fixed bound, queueing additional submissions and resuming them in
submission order as slots free up.  Tasks are identified by their target
path. -/
structure LimiterState where
  inFlight : List String
  waiting : List String
  completed : List String
deriving DecidableEq, Repr

/-- The limiter with no tasks. -/
def initialLimiterState : LimiterState := ⟨[], [], []⟩

/-- Events of a limiter run: a task is submitted (`queue`), or the
oldest in-flight task completes, releasing its slot to the first waiting
task. -/
inductive LimiterEvent where
  | submit (t : String)
  | finish
deriving DecidableEq, Repr

/-- One step of the limiter. -/
def limiterStep (limit : Nat) (s : LimiterState) : LimiterEvent → LimiterState
  | LimiterEvent.submit t =>
    if s.inFlight.length < limit
    then { s with inFlight := s.inFlight ++ [t] }
    else { s with waiting := s.waiting ++ [t] }
  | LimiterEvent.finish =>
    match s.inFlight with
    | [] => s
    | t :: rest =>
      match s.waiting with
      | [] => { inFlight := rest, waiting := [], completed := s.completed ++ [t] }
      | w :: ws => { inFlight := rest ++ [w], waiting := ws, completed := s.completed ++ [t] }

/-- Run the limiter over a list of events. -/
def limiterRun (limit : Nat) (s : LimiterState) (es : List LimiterEvent) : LimiterState :=
  es.foldl (limiterStep limit) s

/-- Let every remaining task complete: iterate `finish` a given number of
times. -/
def limiterDrain (limit : Nat) : Nat → LimiterState → LimiterState
  | 0, s => s
  | n + 1, s => limiterDrain limit n (limiterStep limit s LimiterEvent.finish)

/-! ### Helper predicates used to state the per-pass characterisations -/

/-- A link that the own-header pass reports: internal, targeting the
document's own path, with a non-empty fragment absent from the own table
of contents. -/
def ownHeaderViolation (o : Oracle) (doc : Document) (l : MdLink) : Bool :=
  match l.href with
  | LinkHref.internal path fragment =>
    path == doc.uri.key && fragment != "" && !(o.tocLookup doc fragment)
  | _ => false

/-- The fragment of an internal link (empty otherwise). -/
def hrefFragment (l : MdLink) : String :=
  match l.href with
  | LinkHref.internal _ fragment => fragment
  | _ => ""

/-- A link that the reference pass reports: of reference kind, with no
definition of its name among the document's links. -/
def referenceViolation (links : List MdLink) (l : MdLink) : Bool :=
  match l.href with
  | LinkHref.reference ref => !(linkDefinitionSetLookup links ref)
  | _ => false

/-- The reference name of a reference link (empty otherwise). -/
def hrefRef (l : MdLink) : String :=
  match l.href with
  | LinkHref.reference ref => ref
  | _ => ""

/-- Whether a link is internal (contributes to the file-link map). -/
def isInternalLink (l : MdLink) : Bool :=
  match l.href with
  | LinkHref.internal _ _ => true
  | _ => false

/-! ### Concrete fixtures for witnesses and examples -/

/-- A range for the first example link. -/
def rangeA : Range := ⟨0, 0, 0, 5⟩

/-- A range for the second example link. -/
def rangeB : Range := ⟨1, 0, 1, 8⟩

/-- A markdown document. -/
def docMd : Document := ⟨⟨"file:///doc.md", "/doc.md"⟩, "markdown"⟩

/-- A reference-style link with no matching definition. -/
def refLink : MdLink := MdLink.link ⟨rangeA⟩ (LinkHref.reference "undefined-ref")

/-- A definition for the reference name used by `refLink`. -/
def refDef : MdLink := MdLink.definition ⟨rangeB⟩ "undefined-ref" LinkHref.externalLink

/-- An internal link into the document's own path with fragment
`missing`. -/
def ownLink : MdLink := MdLink.link ⟨rangeA⟩ (LinkHref.internal "file:///doc.md" "missing")

/-- An internal link to another file, with no fragment. -/
def fileLink : MdLink := MdLink.link ⟨rangeA⟩ (LinkHref.internal "file:///missing.md" "")

/-- An oracle for a workspace where nothing exists: the only link of any
document is `refLink`, no table of contents has entries, no other
document resolves, no path exists. -/
def oracleEmptyWorkspace : Oracle :=
  { getAllLinks := fun _ => [refLink]
    tocLookup := fun _ _ => false
    tryFindMdDocumentForLink := fun _ => none
    pathExists := fun _ => false }

/-- An oracle whose tables of contents contain exactly the slug
`missing`. -/
def oracleWithMissingHeader : Oracle :=
  { oracleEmptyWorkspace with tocLookup := fun _ f => f == "missing" }

/-- An oracle for a workspace where every raw path exists on disk. -/
def oracleAllPathsExist : Oracle :=
  { oracleEmptyWorkspace with pathExists := fun _ => true }

/-- Options with validation disabled but the reference category set to
`warning` (the computer does not read `enabled`). -/
def optsDisabledRefWarn : DiagnosticOptions :=
  ⟨false, DiagnosticLevel.warning, DiagnosticLevel.ignore, DiagnosticLevel.ignore⟩

/-- Options with everything ignored. -/
def optsAllIgnore : DiagnosticOptions :=
  ⟨true, DiagnosticLevel.ignore, DiagnosticLevel.ignore, DiagnosticLevel.ignore⟩

/-- Options validating own headers at `error` level. -/
def optsOwnErr : DiagnosticOptions :=
  ⟨true, DiagnosticLevel.ignore, DiagnosticLevel.error, DiagnosticLevel.ignore⟩

/-- Options validating references at `warning` level. -/
def optsRefWarn : DiagnosticOptions :=
  ⟨true, DiagnosticLevel.warning, DiagnosticLevel.ignore, DiagnosticLevel.ignore⟩

/-- Options validating file paths at `error` level. -/
def optsFileErr : DiagnosticOptions :=
  ⟨true, DiagnosticLevel.ignore, DiagnosticLevel.ignore, DiagnosticLevel.error⟩

/-! ### Generic list lemmas -/

/-- `filterMap` with a guarded body is `filter` followed by `map`. -/
lemma filterMap_guard_eq_map_filter {α β : Type} (p : α → Bool) (g : α → β) :
    ∀ l : List α,
      l.filterMap (fun x => if p x then some (g x) else none) = (l.filter p).map g := by
  intro l
  induction l with
  | nil => rfl
  | cons a t ih =>
    by_cases h : p a <;>
      simp [List.filterMap_cons, List.filter_cons, h, ih]

/-! ### C1 -/

/-- C1 counterexample: with `enabled = false` but the reference category
at `warning`, `DiagnosticComputer.getDiagnostics` still reports the
undefined reference — the computer never reads `options.enabled`. -/
theorem c1_computer_ignores_enabled_counterexample :
    optsDisabledRefWarn.enabled = false ∧
    computerGetDiagnostics oracleEmptyWorkspace docMd optsDisabledRefWarn false ≠ [] := by
  decide

/-- C1 (amended): for every oracle, configuration, document and token,
`DiagnosticManager.getDiagnostics` returns the empty list whenever the
configured options for the document's uri have `enabled = false`. -/
theorem c1_manager_enabled_gate (o : Oracle) (cfg : Uri → DiagnosticOptions)
    (doc : Document) (token : Bool) (h : (cfg doc.uri).enabled = false) :
    managerGetDiagnostics o cfg doc token = [] := by
  simp [managerGetDiagnostics, h]

/-- C1 witness: the manager gate evaluated on the concrete disabled
configuration. -/
theorem c1_manager_enabled_gate_witness :
    ((fun _ : Uri => optsDisabledRefWarn) docMd.uri).enabled = false ∧
    managerGetDiagnostics oracleEmptyWorkspace (fun _ => optsDisabledRefWarn) docMd false = [] :=
  ⟨by decide,
    c1_manager_enabled_gate oracleEmptyWorkspace (fun _ => optsDisabledRefWarn) docMd false
      (by decide)⟩

/-! ### C2 -/

/-- C2: each category set to `ignore` makes its pass contribute zero
diagnostics, for every oracle (so in particular without consulting the
existence oracles), every document, link list and token. -/
theorem c2_ignore_category_yields_nothing (o : Oracle) (doc : Document)
    (opts : DiagnosticOptions) (links : List MdLink) (token : Bool) :
    (opts.validateOwnHeaders = DiagnosticLevel.ignore →
      validateOwnHeaderLinks o doc opts links token = []) ∧
    (opts.validateReferences = DiagnosticLevel.ignore →
      validateReferenceLinks opts links = []) ∧
    (opts.validateFilePaths = DiagnosticLevel.ignore →
      validateFileLinks o doc opts links token = []) := by
  refine ⟨fun h => ?_, fun h => ?_, fun h => ?_⟩ <;>
    simp [validateOwnHeaderLinks, validateReferenceLinks, validateFileLinks, h, toSeverity]

/-- C2 witness: with every category ignored but a document full of
violations (undefined reference, missing own header, missing file), all
three passes are empty. -/
theorem c2_ignore_category_yields_nothing_witness :
    validateOwnHeaderLinks oracleEmptyWorkspace docMd optsAllIgnore [ownLink, refLink, fileLink] false = [] ∧
    validateReferenceLinks optsAllIgnore [ownLink, refLink, fileLink] = [] ∧
    validateFileLinks oracleEmptyWorkspace docMd optsAllIgnore [ownLink, refLink, fileLink] false = [] :=
  ⟨(c2_ignore_category_yields_nothing oracleEmptyWorkspace docMd optsAllIgnore
      [ownLink, refLink, fileLink] false).1 rfl,
   (c2_ignore_category_yields_nothing oracleEmptyWorkspace docMd optsAllIgnore
      [ownLink, refLink, fileLink] false).2.1 rfl,
   (c2_ignore_category_yields_nothing oracleEmptyWorkspace docMd optsAllIgnore
      [ownLink, refLink, fileLink] false).2.2 rfl⟩

/-! ### C4 -/

/-- C4: the computer is deterministic — two computations over the same
document, options and oracle answers are the same list — and a
non-cancelled computation is exactly the file-path pass, then the
reference pass, then the own-header pass, concatenated in that fixed
order. -/
theorem c4_deterministic_fixed_pass_order (o : Oracle) (doc : Document)
    (opts : DiagnosticOptions) :
    computerGetDiagnostics o doc opts false = computerGetDiagnostics o doc opts false ∧
    computerGetDiagnostics o doc opts false =
      validateFileLinks o doc opts (o.getAllLinks doc) false
        ++ validateReferenceLinks opts (o.getAllLinks doc)
        ++ validateOwnHeaderLinks o doc opts (o.getAllLinks doc) false :=
  ⟨rfl, rfl⟩

/-! ### C5 -/

/-- C5: with own-header validation active at severity `sev`, the
own-header pass produces exactly one diagnostic per internal link to the
document's own path whose non-empty fragment is absent from the own
table of contents, anchored at that link's href range with severity
`sev`; concretely, a `#missing` link with no matching header yields
exactly one error diagnostic and the same link with the slug present
yields none. -/
theorem c5_own_header_validation (o : Oracle) (doc : Document)
    (opts : DiagnosticOptions) (sev : DiagnosticSeverity) (links : List MdLink)
    (hsev : toSeverity opts.validateOwnHeaders = some sev) :
    validateOwnHeaderLinks o doc opts links false =
      (links.filter (ownHeaderViolation o doc)).map
        (fun l => ⟨l.source.hrefRange, "No header found: " ++ hrefFragment l, sev⟩) ∧
    validateOwnHeaderLinks oracleEmptyWorkspace docMd optsOwnErr [ownLink] false =
      [⟨rangeA, "No header found: missing", DiagnosticSeverity.err⟩] ∧
    validateOwnHeaderLinks oracleWithMissingHeader docMd optsOwnErr [ownLink] false = [] := by
  refine ⟨?_, by decide, by decide⟩
  unfold validateOwnHeaderLinks
  rw [hsev]
  simp only [Bool.false_eq_true, if_false]
  rw [List.filterMap_congr (g := fun l =>
        if ownHeaderViolation o doc l
        then some (Diagnostic.mk l.source.hrefRange ("No header found: " ++ hrefFragment l) sev)
        else none)]
  · exact filterMap_guard_eq_map_filter _ _ links
  · intro l _
    cases hl : l.href with
    | internal p f => simp [ownHeaderViolation, hrefFragment, hl]
    | reference r => simp [ownHeaderViolation, hl]
    | externalLink => simp [ownHeaderViolation, hl]

/-- C5 witness: the general own-header characterisation applied to the
concrete document with the dangling `#missing` link. -/
theorem c5_own_header_validation_witness :
    validateOwnHeaderLinks oracleEmptyWorkspace docMd optsOwnErr [ownLink] false =
      ([ownLink].filter (ownHeaderViolation oracleEmptyWorkspace docMd)).map
        (fun l => ⟨l.source.hrefRange, "No header found: " ++ hrefFragment l,
          DiagnosticSeverity.err⟩) :=
  (c5_own_header_validation oracleEmptyWorkspace docMd optsOwnErr
    DiagnosticSeverity.err [ownLink] (by decide)).1

/-! ### C7 -/

/-- C7: with reference validation active at severity `sev`, the
reference pass produces exactly one diagnostic per reference link whose
name has no definition among the document's links, anchored at that
link's href range with severity `sev`; concretely, `[text][undefined-ref]`
with no definition yields exactly one warning diagnostic, and adding the
definition yields none. -/
theorem c7_reference_validation (opts : DiagnosticOptions)
    (sev : DiagnosticSeverity) (links : List MdLink)
    (hsev : toSeverity opts.validateReferences = some sev) :
    validateReferenceLinks opts links =
      (links.filter (referenceViolation links)).map
        (fun l => ⟨l.source.hrefRange, "No link reference found: " ++ hrefRef l, sev⟩) ∧
    validateReferenceLinks optsRefWarn [refLink] =
      [⟨rangeA, "No link reference found: undefined-ref", DiagnosticSeverity.warn⟩] ∧
    validateReferenceLinks optsRefWarn [refLink, refDef] = [] := by
  refine ⟨?_, by decide, by decide⟩
  simp only [validateReferenceLinks, hsev]
  rw [List.filterMap_congr (g := fun l =>
        if referenceViolation links l
        then some (Diagnostic.mk l.source.hrefRange ("No link reference found: " ++ hrefRef l) sev)
        else none)]
  · exact filterMap_guard_eq_map_filter _ _ links
  · intro l _
    cases hl : l.href with
    | internal p f => simp [referenceViolation, hl]
    | reference r => simp [referenceViolation, hrefRef, hl]
    | externalLink => simp [referenceViolation, hl]

/-- C7 witness: the general reference characterisation applied to the
concrete document with the undefined reference. -/
theorem c7_reference_validation_witness :
    validateReferenceLinks optsRefWarn [refLink] =
      ([refLink].filter (referenceViolation [refLink])).map
        (fun l => ⟨l.source.hrefRange, "No link reference found: " ++ hrefRef l,
          DiagnosticSeverity.warn⟩) :=
  (c7_reference_validation optsRefWarn DiagnosticSeverity.warn [refLink] (by decide)).1

/-! ### FileLinkMap lemmas -/

/-- Inserting into the file-link map either leaves the key list alone
(existing key) or appends the new key at the end. -/
lemma fileLinkMapInsert_keys (p : String) (d : FileLinkData) :
    ∀ m : List FileLinksData,
      (fileLinkMapInsert m p d).map FileLinksData.path =
        if p ∈ m.map FileLinksData.path then m.map FileLinksData.path
        else m.map FileLinksData.path ++ [p] := by
  intro m
  induction m with
  | nil => simp [fileLinkMapInsert]
  | cons e rest ih =>
    by_cases h : e.path = p
    · simp [fileLinkMapInsert, h]
    · have hb : (e.path == p) = false := by simp [h]
      by_cases hm : p ∈ rest.map FileLinksData.path <;>
        simp [fileLinkMapInsert, hb, ih, hm, Ne.symm h]

/-- Insertion preserves distinctness of the file keys. -/
lemma fileLinkMapInsert_keys_nodup (p : String) (d : FileLinkData)
    (m : List FileLinksData) (h : (m.map FileLinksData.path).Nodup) :
    ((fileLinkMapInsert m p d).map FileLinksData.path).Nodup := by
  rw [fileLinkMapInsert_keys]
  by_cases hm : p ∈ m.map FileLinksData.path <;>
    simp [hm, List.nodup_append, h]

/-- The file-link map groups links by distinct target path: its key list
has no duplicates. -/
lemma fileLinkMapBuild_keys_nodup (links : List MdLink) :
    ((fileLinkMapBuild links).map FileLinksData.path).Nodup := by
  suffices h : ∀ (ls : List MdLink) (acc : List FileLinksData),
      (acc.map FileLinksData.path).Nodup →
      ((ls.foldl
        (fun m l =>
          match l.href with
          | LinkHref.internal path fragment => fileLinkMapInsert m path ⟨l.source, fragment⟩
          | _ => m)
        acc).map FileLinksData.path).Nodup by
    exact h links [] (by simp)
  intro ls
  induction ls with
  | nil => intro acc hacc; simpa using hacc
  | cons l t ih =>
    intro acc hacc
    cases hl : l.href with
    | internal p f =>
      simp only [List.foldl_cons, hl]
      exact ih _ (fileLinkMapInsert_keys_nodup p ⟨l.source, f⟩ acc hacc)
    | reference r => simp only [List.foldl_cons, hl]; exact ih _ hacc
    | externalLink => simp only [List.foldl_cons, hl]; exact ih _ hacc

/-- Inserting into the file-link map adds exactly one link site. -/
lemma fileLinkMapInsert_total (p : String) (d : FileLinkData) :
    ∀ m : List FileLinksData,
      ((fileLinkMapInsert m p d).map (fun e => e.links.length)).sum =
        ((m.map (fun e => e.links.length)).sum) + 1 := by
  intro m
  induction m with
  | nil => simp [fileLinkMapInsert]
  | cons e rest ih =>
    by_cases h : e.path == p <;> simp [fileLinkMapInsert, h, ih] <;> omega

/-- The file-link map contains one link site per internal link: no link
is lost or duplicated by the grouping. -/
lemma fileLinkMapBuild_total (links : List MdLink) :
    ((fileLinkMapBuild links).map (fun e => e.links.length)).sum =
      (links.filter isInternalLink).length := by
  suffices h : ∀ (ls : List MdLink) (acc : List FileLinksData),
      ((ls.foldl
        (fun m l =>
          match l.href with
          | LinkHref.internal path fragment => fileLinkMapInsert m path ⟨l.source, fragment⟩
          | _ => m)
        acc).map (fun e => e.links.length)).sum =
      ((acc.map (fun e => e.links.length)).sum) + (ls.filter isInternalLink).length by
    simpa using h links []
  intro ls
  induction ls with
  | nil => intro acc; simp
  | cons l t ih =>
    intro acc
    cases hl : l.href with
    | internal p f =>
      simp only [List.foldl_cons, hl, List.filter_cons, isInternalLink]
      rw [ih, fileLinkMapInsert_total]
      simp [hl, isInternalLink]
      omega
    | reference r =>
      simp only [List.foldl_cons, hl, List.filter_cons, isInternalLink]
      rw [ih]
      simp [hl, isInternalLink]
    | externalLink =>
      simp only [List.foldl_cons, hl, List.filter_cons, isInternalLink]
      rw [ih]
      simp [hl, isInternalLink]

/-! ### C6 -/

/-- C6: with file-path validation active at severity `sev`: the
file-link map groups the internal links by distinct target path without
losing or duplicating a link site; the pass is the concatenation of the
per-entry results; an entry resolving to the validated document itself
is skipped; an entry resolving to no document and no existing path
yields one file-does-not-exist diagnostic per referencing link site at
its href range; an entry resolving to another markdown document yields a
header diagnostic for each referencing link whose fragment misses that
document's table of contents; and concretely a `./missing.md` link
yields one error diagnostic, which disappears once the path exists. -/
theorem c6_file_path_validation (o : Oracle) (doc : Document)
    (opts : DiagnosticOptions) (sev : DiagnosticSeverity) (links : List MdLink)
    (entry : FileLinksData) (hdoc : Document)
    (hsev : toSeverity opts.validateFilePaths = some sev) :
    ((fileLinkMapBuild links).map FileLinksData.path).Nodup ∧
    ((fileLinkMapBuild links).map (fun e => e.links.length)).sum =
      (links.filter isInternalLink).length ∧
    validateFileLinks o doc opts links false =
      ((fileLinkMapBuild links).map (processFileLinkEntry o doc sev false)).flatten ∧
    (o.tryFindMdDocumentForLink entry.path = some hdoc →
      hdoc.uri.key = doc.uri.key →
      processFileLinkEntry o doc sev false entry = []) ∧
    (o.tryFindMdDocumentForLink entry.path = none →
      o.pathExists entry.path = false →
      processFileLinkEntry o doc sev false entry =
        entry.links.map (fun l =>
          ⟨l.source.hrefRange, "File does not exist at path: " ++ entry.path, sev⟩)) ∧
    (o.tryFindMdDocumentForLink entry.path = some hdoc →
      hdoc.uri.key ≠ doc.uri.key →
      processFileLinkEntry o doc sev false entry =
        ((entry.links.filter (fun l => l.fragment != "")).filter
            (fun l => !(o.tocLookup hdoc l.fragment))).map
          (fun l => ⟨l.source.hrefRange,
            "Header does not exist in file: " ++ l.fragment, sev⟩)) ∧
    validateFileLinks oracleEmptyWorkspace docMd optsFileErr [fileLink] false =
      [⟨rangeA, "File does not exist at path: file:///missing.md", DiagnosticSeverity.err⟩] ∧
    validateFileLinks oracleAllPathsExist docMd optsFileErr [fileLink] false = [] := by
  refine ⟨fileLinkMapBuild_keys_nodup links, fileLinkMapBuild_total links, ?_, ?_, ?_, ?_,
    by decide, by decide⟩
  · simp only [validateFileLinks, hsev]
    by_cases h : (fileLinkMapBuild links).isEmpty
    · have h' := List.isEmpty_iff.mp h
      simp [h, h']
    · simp [h]
  · intro h1 h2
    simp [processFileLinkEntry, h1, h2]
  · intro h1 h2
    simp [processFileLinkEntry, h1, h2]
  · intro h1 h2
    have hbeq : (hdoc.uri.key == doc.uri.key) = false := by simp [h2]
    by_cases hfe : (entry.links.filter (fun l => l.fragment != "")).isEmpty
    · have hfe' := List.isEmpty_iff.mp hfe
      simp [processFileLinkEntry, h1, hbeq, hfe, hfe']
    · simp only [processFileLinkEntry, h1, hbeq, hfe, Bool.false_eq_true, if_false]
      exact filterMap_guard_eq_map_filter _ _ _

/-- C6 witness: the per-entry decomposition of the file-path pass
evaluated on the concrete document with the `./missing.md` link. -/
theorem c6_file_path_validation_witness :
    validateFileLinks oracleEmptyWorkspace docMd optsFileErr [fileLink] false =
      ((fileLinkMapBuild [fileLink]).map
        (processFileLinkEntry oracleEmptyWorkspace docMd DiagnosticSeverity.err false)).flatten :=
  (c6_file_path_validation oracleEmptyWorkspace docMd optsFileErr DiagnosticSeverity.err
    [fileLink] ⟨"file:///missing.md", [⟨⟨rangeA⟩, ""⟩]⟩ docMd (by decide)).2.2.1

/-! ### Collection lemmas -/

/-- Looking up in the empty collection. -/
@[simp]
lemma collLookup_nil (u : String) : collLookup [] u = none := rfl

/-- `set` publishes exactly under its key. -/
lemma collLookup_collSet_self (c : Collection) (u : String) (ds : List Diagnostic) :
    collLookup (collSet c u ds) u = some ds := by
  induction c with
  | nil => simp [collSet, collLookup]
  | cons e rest ih =>
    by_cases h : e.1 = u <;> simp [collSet, collLookup, h, ih]

/-- `set` leaves every other key unchanged. -/
lemma collLookup_collSet_other (c : Collection) (u v : String)
    (ds : List Diagnostic) (h : v ≠ u) :
    collLookup (collSet c u ds) v = collLookup c v := by
  have h' : ¬u = v := fun he => h he.symm
  induction c with
  | nil => simp [collSet, collLookup, h']
  | cons e rest ih =>
    by_cases he : e.1 = u
    · simp [collSet, collLookup, he, h, h']
    · by_cases hv : e.1 = v <;> simp [collSet, collLookup, he, hv, ih, h, h']

/-- Any key published by a fold of `set` operations was either already
published or corresponds to one of the folded documents. -/
lemma collLookup_foldl_collSet (k : Document → String) (v : Document → List Diagnostic) :
    ∀ (docs : List Document) (acc : Collection) (u : String) (ds : List Diagnostic),
      collLookup (docs.foldl (fun a d => collSet a (k d) (v d)) acc) u = some ds →
      (∃ d, d ∈ docs ∧ k d = u ∧ ds = v d) ∨ collLookup acc u = some ds := by
  intro docs
  induction docs with
  | nil => intro acc u ds h; exact Or.inr h
  | cons d t ih =>
    intro acc u ds h
    rcases ih _ _ _ h with h1 | h2
    · obtain ⟨d', hd', hk, hv⟩ := h1
      exact Or.inl ⟨d', List.mem_cons_of_mem _ hd', hk, hv⟩
    · by_cases hu : k d = u
      · rw [← hu, collLookup_collSet_self] at h2
        exact Or.inl ⟨d, List.mem_cons_self _ _, hu, (Option.some.inj h2).symm⟩
      · rw [collLookup_collSet_other _ _ _ _ (fun he => hu he.symm)] at h2
        exact Or.inr h2

/-- A fold of `set` operations publishes something for every key it is
given (and keeps everything already published present). -/
lemma collLookup_foldl_collSet_isSome (k : Document → String) (v : Document → List Diagnostic) :
    ∀ (docs : List Document) (acc : Collection) (u : String),
      ((collLookup acc u).isSome = true ∨ ∃ d, d ∈ docs ∧ k d = u) →
      (collLookup (docs.foldl (fun a d => collSet a (k d) (v d)) acc) u).isSome = true := by
  intro docs
  induction docs with
  | nil =>
    intro acc u h
    rcases h with h | ⟨d, hd, _⟩
    · exact h
    · exact absurd hd (List.not_mem_nil d)
  | cons d t ih =>
    intro acc u h
    apply ih
    rcases h with h | ⟨d', hd', hk⟩
    · left
      by_cases hu : u = k d
      · rw [hu, collLookup_collSet_self]; rfl
      · rw [collLookup_collSet_other _ _ _ _ hu]; exact h
    · rcases List.mem_cons.mp hd' with rfl | hmem
      · left; rw [← hk, collLookup_collSet_self]; rfl
      · right; exact ⟨d', hmem, hk⟩

/-- A diagnostic published for the example document. -/
def diagA : Diagnostic := ⟨rangeA, "No link reference found: undefined-ref", DiagnosticSeverity.warn⟩

/-! ### C3 -/

/-- C3 (code bug): on the trace where an `update` for the document is in
flight when the document closes, the close does clear the collection and
the pending set (first two conjuncts), but the in-flight computation
later completes and re-publishes stale diagnostics for the closed
document via `collection.set` (third conjunct) — `update` runs with
`noopToken` and is never cancelled. -/
theorem c3_stale_republish_after_close :
    collLookup (managerRun initialManagerState
      [ManagerEvent.beginUpdate "file:///doc.md" [diagA],
       ManagerEvent.closeDoc "file:///doc.md"]).collection "file:///doc.md" = none ∧
    (managerRun initialManagerState
      [ManagerEvent.beginUpdate "file:///doc.md" [diagA],
       ManagerEvent.closeDoc "file:///doc.md"]).pending.contains "file:///doc.md" = false ∧
    collLookup (managerRun initialManagerState
      [ManagerEvent.beginUpdate "file:///doc.md" [diagA],
       ManagerEvent.closeDoc "file:///doc.md",
       ManagerEvent.finishUpdate]).collection "file:///doc.md" = some [diagA] := by
  decide

/-! ### C8 -/

/-- C8: a configuration-change rebuild ignores the previously published
collection entirely (clear first); everything it publishes is the fresh
manager result of an open markdown document tracked by some tab;
every tracked open markdown document gets an entry; and with validation
turned off every published entry is empty, so no previously published
diagnostic survives. -/
theorem c8_config_change_rebuild (o : Oracle) (cfg : Uri → DiagnosticOptions)
    (opts : DiagnosticOptions) (textDocuments : List Document) (tabUris : List Uri)
    (c c' : Collection) (u : String) (ds ds' : List Diagnostic) (d : Document)
    (h1 : collLookup (rebuild o cfg textDocuments tabUris c) u = some ds)
    (h2 : d ∈ textDocuments)
    (h3 : (getAllTabResources tabUris).contains d.uri.key = true)
    (h4 : isMarkdownFile d = true)
    (h5 : opts.enabled = false)
    (h6 : collLookup (rebuild o (fun _ => opts) textDocuments tabUris c) u = some ds') :
    rebuild o cfg textDocuments tabUris c = rebuild o cfg textDocuments tabUris c' ∧
    (∃ d', d' ∈ textDocuments ∧ d'.uri.key = u ∧
      (getAllTabResources tabUris).contains d'.uri.key = true ∧
      isMarkdownFile d' = true ∧
      ds = managerGetDiagnostics o cfg d' false) ∧
    (collLookup (rebuild o cfg textDocuments tabUris c) d.uri.key).isSome = true ∧
    ds' = [] := by
  refine ⟨rfl, ?_, ?_, ?_⟩
  · rcases collLookup_foldl_collSet _ _ _ _ _ _ h1 with ⟨d', hd', hk, hv⟩ | habs
    · rw [List.mem_filter] at hd'
      obtain ⟨hmem, hcond⟩ := hd'
      rw [Bool.and_eq_true] at hcond
      exact ⟨d', hmem, hk, hcond.1, hcond.2, hv⟩
    · simp at habs
  · apply collLookup_foldl_collSet_isSome
    right
    exact ⟨d, List.mem_filter.mpr ⟨h2, by rw [Bool.and_eq_true]; exact ⟨h3, h4⟩⟩, rfl⟩
  · rcases collLookup_foldl_collSet _ _ _ _ _ _ h6 with ⟨d', _, _, hv⟩ | habs
    · rw [hv]; simp [managerGetDiagnostics, h5]
    · simp at habs

/-- C8 witness: every tracked open markdown document receives an entry
after the rebuild, evaluated on a one-document workspace. -/
theorem c8_config_change_rebuild_witness :
    (collLookup (rebuild oracleEmptyWorkspace (fun _ => optsRefWarn) [docMd] [docMd.uri] [])
      docMd.uri.key).isSome = true :=
  (c8_config_change_rebuild oracleEmptyWorkspace (fun _ => optsRefWarn) optsDisabledRefWarn
    [docMd] [docMd.uri] [] [("x", [])] "file:///doc.md"
    [⟨rangeA, "No link reference found: undefined-ref", DiagnosticSeverity.warn⟩] []
    docMd (by decide) (by decide) (by decide) (by decide) (by decide) (by decide)).2.2.1

/-! ### C10 -/

/-- `find?` returns the first match: no match in the prefix, a match at
`d`. -/
lemma find?_first_match {α : Type} (p : α → Bool) (d : α) :
    ∀ (pre post : List α), p d = true → pre.all (fun x => !(p x)) = true →
      (pre ++ d :: post).find? p = some d := by
  intro pre post hd hpre
  induction pre with
  | nil => simpa using List.find?_cons_of_pos (l := post) hd
  | cons e t ih =>
    rw [List.all_cons, Bool.and_eq_true] at hpre
    have he : p e = false := by
      cases h : p e
      · rfl
      · rw [h] at hpre; exact absurd hpre.1 (by simp)
    simpa [List.find?, he] using ih hpre.2

/-- An open text document whose uri shares `docMd`'s filesystem path but
differs in scheme. -/
def docAltScheme : Document := ⟨⟨"untitled:doc.md", "/doc.md"⟩, "markdown"⟩

/-- A pending uri recorded before `docMd` was reopened under another
scheme. -/
def pendingUri : Uri := ⟨"file:///doc.md", "/doc.md"⟩

/-- C10: when the debounce timer fires, the pending set is drained
completely; a pending uri is recomputed exactly when some open text
document has the same `fsPath` (first conjunct after the iff: discarded
silently — the collection is untouched and nothing is retried); and when
several open documents share that `fsPath` the first one in
`workspace.textDocuments` is chosen and the result is published under
that document's uri, even if it differs from the pending uri outside
`fsPath`. -/
theorem c10_pending_fsPath_matching (o : Oracle) (cfg : Uri → DiagnosticOptions)
    (textDocuments : List Document) (pending : List Uri) (r : Uri) (c : Collection)
    (d : Document) (pre post : List Document)
    (hnone : textDocuments.find? (fun d' => d'.uri.fsPath == r.fsPath) = none)
    (hd : d.uri.fsPath = r.fsPath)
    (hpre : pre.all (fun d' => d'.uri.fsPath != r.fsPath) = true) :
    (recomputePendingDiagnostics o cfg textDocuments pending c).1 = [] ∧
    ((textDocuments.find? (fun d' => d'.uri.fsPath == r.fsPath) = none) ↔
      textDocuments.all (fun d' => d'.uri.fsPath != r.fsPath) = true) ∧
    recomputePendingDiagnostics o cfg textDocuments [r] c = ([], c) ∧
    recomputePendingDiagnostics o cfg (pre ++ d :: post) [r] c =
      ([], collSet c d.uri.key (managerGetDiagnostics o cfg d false)) := by
  refine ⟨rfl, ?_, ?_, ?_⟩
  · rw [List.find?_eq_none, List.all_eq_true]
    constructor
    · intro h x hx
      have := h x hx
      simpa [bne] using this
    · intro h x hx
      have := h x hx
      simpa [bne] using this
  · simp [recomputePendingDiagnostics, hnone]
  · have hfind := find?_first_match (fun d' => d'.uri.fsPath == r.fsPath) d pre post
      (by simp [hd]) (by simpa [bne] using hpre)
    simp only [recomputePendingDiagnostics, List.filterMap_cons, List.filterMap_nil, hfind]
    simp

/-- C10 witness: a pending `file:` uri is recomputed through the open
`untitled:` document sharing its filesystem path and published under the
latter's uri. -/
theorem c10_pending_fsPath_matching_witness :
    recomputePendingDiagnostics oracleEmptyWorkspace (fun _ => optsRefWarn)
      ([] ++ docAltScheme :: []) [pendingUri] [] =
      ([], collSet [] docAltScheme.uri.key
        (managerGetDiagnostics oracleEmptyWorkspace (fun _ => optsRefWarn) docAltScheme false)) :=
  (c10_pending_fsPath_matching oracleEmptyWorkspace (fun _ => optsRefWarn)
    [] [] pendingUri [] docAltScheme [] [] (by decide) (by decide) (by decide)).2.2.2

/-! ### Limiter lemmas -/

/-- Number of tasks admitted or queued but not yet completed. -/
def limiterLoad (s : LimiterState) : Nat := s.inFlight.length + s.waiting.length

/-- How often a task id occurs across all three compartments. -/
def limiterCountAll (s : LimiterState) (t : String) : Nat :=
  s.inFlight.count t + s.waiting.count t + s.completed.count t

/-- Submitting a task then draining every slot: the canonical run of the
limiter over the file-path targets of one computation. -/
def limiterRunAndDrain (limit : Nat) (ts : List String) : LimiterState :=
  limiterDrain limit
    (limiterLoad (limiterRun limit initialLimiterState (ts.map LimiterEvent.submit)))
    (limiterRun limit initialLimiterState (ts.map LimiterEvent.submit))

/-- A predicate preserved by every limiter step is preserved by every
run. -/
lemma limiterRun_preserve (limit : Nat) (P : LimiterState → Prop)
    (hstep : ∀ s e, P s → P (limiterStep limit s e)) :
    ∀ (es : List LimiterEvent) (s : LimiterState), P s → P (limiterRun limit s es) := by
  intro es
  induction es with
  | nil => intro s h; exact h
  | cons e t ih => intro s h; exact ih _ (hstep s e h)

/-- One step never pushes the in-flight count above the bound. -/
lemma limiterStep_inFlight_le (limit : Nat) (s : LimiterState) (e : LimiterEvent)
    (h : s.inFlight.length ≤ limit) :
    (limiterStep limit s e).inFlight.length ≤ limit := by
  cases e with
  | submit t =>
    by_cases hlt : s.inFlight.length < limit <;>
      simp [limiterStep, hlt] <;> omega
  | finish =>
    cases hif : s.inFlight with
    | nil => simp only [limiterStep, hif]; simp
    | cons a rest =>
      cases hw : s.waiting with
      | nil =>
        rw [hif] at h
        simp only [limiterStep, hif, hw]
        simp at h ⊢
        omega
      | cons w ws =>
        rw [hif] at h
        simp only [limiterStep, hif, hw]
        simp at h ⊢
        omega

/-- Submitting adds exactly the submitted task to the three
compartments. -/
lemma limiterStep_submit_countAll (limit : Nat) (s : LimiterState) (t' t : String) :
    limiterCountAll (limiterStep limit s (LimiterEvent.submit t')) t =
      limiterCountAll s t + [t'].count t := by
  by_cases hlt : s.inFlight.length < limit <;>
    simp [limiterStep, hlt, limiterCountAll, List.count_append] <;> omega

/-- Completing moves a task between compartments without changing any
task's total count. -/
lemma limiterStep_finish_countAll (limit : Nat) (s : LimiterState) (t : String) :
    limiterCountAll (limiterStep limit s LimiterEvent.finish) t = limiterCountAll s t := by
  cases hif : s.inFlight with
  | nil => simp [limiterStep, hif]
  | cons a rest =>
    cases hw : s.waiting with
    | nil =>
      simp [limiterStep, hif, hw, limiterCountAll, List.count_append, List.count_cons]
      omega
    | cons w ws =>
      simp [limiterStep, hif, hw, limiterCountAll, List.count_append, List.count_cons]
      omega

/-- Running just submissions accumulates exactly the submitted tasks. -/
lemma limiterRun_submits_countAll (limit : Nat) (t : String) :
    ∀ (ts : List String) (s : LimiterState),
      limiterCountAll (limiterRun limit s (ts.map LimiterEvent.submit)) t =
        limiterCountAll s t + ts.count t := by
  intro ts
  induction ts with
  | nil => intro s; simp [limiterRun]
  | cons t' rest ih =>
    intro s
    have h1 := limiterStep_submit_countAll limit s t' t
    have h2 := ih (limiterStep limit s (LimiterEvent.submit t'))
    simp only [List.map_cons]
    show limiterCountAll
      (limiterRun limit (limiterStep limit s (LimiterEvent.submit t')) (rest.map LimiterEvent.submit)) t = _
    rw [h2, h1]
    simp [List.count_cons]
    omega

/-- Draining preserves every task's total count. -/
lemma limiterDrain_countAll (limit : Nat) (t : String) :
    ∀ (n : Nat) (s : LimiterState),
      limiterCountAll (limiterDrain limit n s) t = limiterCountAll s t := by
  intro n
  induction n with
  | zero => intro s; rfl
  | succ m ih =>
    intro s
    show limiterCountAll (limiterDrain limit m (limiterStep limit s LimiterEvent.finish)) t = _
    rw [ih, limiterStep_finish_countAll]

/-- Draining with enough fuel empties the limiter, as long as tasks are
never waiting while a slot is free. -/
lemma limiterDrain_empties (limit : Nat) :
    ∀ (n : Nat) (s : LimiterState), limiterLoad s ≤ n →
      (s.waiting = [] ∨ s.inFlight ≠ []) →
      (limiterDrain limit n s).inFlight = [] ∧ (limiterDrain limit n s).waiting = [] := by
  intro n
  induction n with
  | zero =>
    intro s hload _
    have hdrain : limiterDrain limit 0 s = s := rfl
    rw [hdrain]
    refine ⟨List.length_eq_zero.mp ?_, List.length_eq_zero.mp ?_⟩ <;>
      (unfold limiterLoad at hload; omega)
  | succ m ih =>
    intro s hload hinv
    have key : limiterDrain limit (m + 1) s =
        limiterDrain limit m (limiterStep limit s LimiterEvent.finish) := rfl
    cases hif : s.inFlight with
    | nil =>
      have hw : s.waiting = [] := by
        rcases hinv with h | h
        · exact h
        · exact absurd hif h
      have hstep : limiterStep limit s LimiterEvent.finish = s := by
        simp [limiterStep, hif]
      rw [key, hstep]
      refine ih s ?_ (Or.inl hw)
      unfold limiterLoad at hload ⊢
      rw [hif, hw]
      simp
    | cons a rest =>
      cases hw : s.waiting with
      | nil =>
        have hstep : limiterStep limit s LimiterEvent.finish =
            ⟨rest, [], s.completed ++ [a]⟩ := by
          simp [limiterStep, hif, hw]
        rw [key, hstep]
        refine ih ⟨rest, [], s.completed ++ [a]⟩ ?_ (Or.inl rfl)
        unfold limiterLoad at hload ⊢
        rw [hif, hw] at hload
        simp at hload ⊢
        omega
      | cons w ws =>
        have hstep : limiterStep limit s LimiterEvent.finish =
            ⟨rest ++ [w], ws, s.completed ++ [a]⟩ := by
          simp [limiterStep, hif, hw]
        rw [key, hstep]
        refine ih ⟨rest ++ [w], ws, s.completed ++ [a]⟩ ?_ (Or.inr (by simp))
        unfold limiterLoad at hload ⊢
        rw [hif, hw] at hload
        simp at hload ⊢
        omega

/-- Submissions never leave a task waiting while the in-flight list is
empty (for a positive bound), and neither does completion. -/
lemma limiterStep_inv (limit : Nat) (hlimit : 0 < limit) (s : LimiterState)
    (e : LimiterEvent) (h : s.waiting = [] ∨ s.inFlight ≠ []) :
    (limiterStep limit s e).waiting = [] ∨ (limiterStep limit s e).inFlight ≠ [] := by
  cases e with
  | submit t =>
    by_cases hlt : s.inFlight.length < limit
    · simp [limiterStep, hlt]
    · right
      have : s.inFlight.length ≠ 0 := by omega
      simp [limiterStep, hlt]
      intro hnil
      exact this (by rw [hnil]; rfl)
  | finish =>
    cases hif : s.inFlight with
    | nil =>
      simp only [limiterStep, hif]
      rcases h with h | h
      · exact Or.inl h
      · exact absurd hif h
    | cons a rest =>
      cases hw : s.waiting with
      | nil => simp [limiterStep, hif, hw]
      | cons w ws => simp [limiterStep, hif, hw]

/-- In a list without duplicates every member occurs exactly once. -/
lemma count_eq_one_of_nodup_mem :
    ∀ (l : List String) (t : String), l.Nodup → t ∈ l → l.count t = 1 := by
  intro l
  induction l with
  | nil => intro t _ ht; cases ht
  | cons a rest ih =>
    intro t hn ht
    rw [List.count_cons]
    rcases List.mem_cons.mp ht with rfl | hmem
    · have h0 : rest.count t = 0 :=
        List.count_eq_zero.mpr (List.nodup_cons.mp hn).1
      simp [h0]
    · have hne : t ≠ a := fun he => (List.nodup_cons.mp hn).1 (he ▸ hmem)
      have hne' : ¬a = t := fun he => hne he.symm
      have h1 : rest.count t = 1 := ih t (List.nodup_cons.mp hn).2 hmem
      simp [h1, hne, hne']

/-! ### C9 -/

/-- A document with eleven distinct internal link targets. -/
def elevenTargetLinks : List MdLink :=
  ["p0", "p1", "p2", "p3", "p4", "p5", "p6", "p7", "p8", "p9", "p10"].map
    (fun p => MdLink.link ⟨rangeA⟩ (LinkHref.internal p ""))

/-- C9: on a document with more than 10 distinct internal link targets,
the limiter keeps at most 10 resolutions in flight after any event
sequence whatsoever; and submitting all distinct targets of the
file-link map and letting every slot drain completes with nothing in
flight, nothing waiting, and each distinct target resolved exactly
once. -/
theorem c9_limiter_bound_and_completion (links : List MdLink)
    (es : List LimiterEvent) (t : String)
    (_h10 : 10 < ((fileLinkMapBuild links).map FileLinksData.path).length)
    (ht : t ∈ (fileLinkMapBuild links).map FileLinksData.path) :
    (limiterRun 10 initialLimiterState es).inFlight.length ≤ 10 ∧
    (limiterRunAndDrain 10 ((fileLinkMapBuild links).map FileLinksData.path)).inFlight = [] ∧
    (limiterRunAndDrain 10 ((fileLinkMapBuild links).map FileLinksData.path)).waiting = [] ∧
    (limiterRunAndDrain 10 ((fileLinkMapBuild links).map FileLinksData.path)).completed.count t
      = 1 := by
  have hnodup := fileLinkMapBuild_keys_nodup links
  have hempty :
      (limiterRunAndDrain 10 ((fileLinkMapBuild links).map FileLinksData.path)).inFlight = [] ∧
      (limiterRunAndDrain 10 ((fileLinkMapBuild links).map FileLinksData.path)).waiting = [] := by
    unfold limiterRunAndDrain
    exact limiterDrain_empties 10 _ _ (le_refl _)
      (limiterRun_preserve 10 (fun s => s.waiting = [] ∨ s.inFlight ≠ [])
        (fun s e h => limiterStep_inv 10 (by omega) s e h) _ initialLimiterState (Or.inl rfl))
  have hcount :
      limiterCountAll (limiterRunAndDrain 10
        ((fileLinkMapBuild links).map FileLinksData.path)) t =
      ((fileLinkMapBuild links).map FileLinksData.path).count t := by
    unfold limiterRunAndDrain
    rw [limiterDrain_countAll, limiterRun_submits_countAll]
    simp [limiterCountAll, initialLimiterState]
  refine ⟨?_, hempty.1, hempty.2, ?_⟩
  · exact limiterRun_preserve 10 (fun s => s.inFlight.length ≤ 10)
      (fun s e h => limiterStep_inFlight_le 10 s e h) es initialLimiterState
      (by simp [initialLimiterState])
  · have h1 : ((fileLinkMapBuild links).map FileLinksData.path).count t = 1 :=
      count_eq_one_of_nodup_mem _ t hnodup ht
    unfold limiterCountAll at hcount
    rw [hempty.1, hempty.2, h1] at hcount
    simpa using hcount

/-- C9 witness: the limiter run over the eleven-target document resolves
target `p0` exactly once after draining. -/
theorem c9_limiter_bound_and_completion_witness :
    (limiterRunAndDrain 10
      ((fileLinkMapBuild elevenTargetLinks).map FileLinksData.path)).completed.count "p0" = 1 :=
  (c9_limiter_bound_and_completion elevenTargetLinks [] "p0"
    (by decide) (by decide)).2.2.2

end MdDiagnostics
